import Mathlib

/-!
Shallow embedding of the RAGFile container (src/ragfile/ragfile_utils.py).

Bytes are modelled as natural numbers; Python str values are represented by
their UTF-8 byte sequences (type Bytes), so Python string equality coincides
with list equality.  The host is little-endian (endian flag 0), matching the
only encoding the format supports.  Embedding vectors are represented by the
byte string produced by the numpy cast/tobytes call, since no claim depends
on float semantics, only on the serialized bytes.
-/

namespace RAGFile

/-- A byte string: each element is a byte value. -/
abbrev Bytes := List Nat

/-- The magic constant b"RAGFILE". -/
def magicBytes : Bytes := [82, 65, 71, 70, 73, 76, 69]

/-- The section name "keyword" as bytes. -/
def kwToken : Bytes := [107, 101, 121, 119, 111, 114, 100]

/-- The section name "vector" as bytes. -/
def vecToken : Bytes := [118, 101, 99, 116, 111, 114]

/-- State of RAGFileWriter: the in-memory buffer and the index entry list. -/
structure WriterState where
  buf : Bytes
  index_entries : List (Bytes × Nat × Nat)
deriving DecidableEq, Repr

/-- Writer state right after construction. -/
def initWriter : WriterState := ⟨[], []⟩

/-- struct.pack of a u64 in little-endian host order (RAGFileWriter._u64). -/
def u64le (v : Nat) : Bytes :=
  [v % 256, v / 256 % 256, v / 256 ^ 2 % 256, v / 256 ^ 3 % 256,
   v / 256 ^ 4 % 256, v / 256 ^ 5 % 256, v / 256 ^ 6 % 256, v / 256 ^ 7 % 256]

/-- Number of zero bytes RAGFileWriter._pad appends. -/
def padLenF (l : Bytes) (a : Nat) : Nat := (a - l.length % a) % a

/-- RAGFileWriter._pad: append zero bytes until the length is a multiple of
the alignment. -/
def padRecord (l : Bytes) (a : Nat) : Bytes := l ++ List.replicate (padLenF l a) 0

/-- The serialized body of one keyword record: keyword, one 0x2D delimiter,
content (f-string "{keyword}-{content}" encoded as UTF-8). -/
def kwRecord (p : Bytes × Bytes) : Bytes := p.1 ++ 45 :: p.2

/-- RAGFileWriter.write_header: appends magic, three version bytes and the
endianness flag (0 for little-endian hosts). -/
def writeHeader (major minor patch : Nat) (s : WriterState) : WriterState :=
  { s with buf := s.buf ++ magicBytes ++ [major, minor, patch] ++ [0] }

/-- Python slice assignment l[i : i + r.length] = r (the replacement has the
same length as the replaced range in every use in the source). -/
def setRange (l : Bytes) (i : Nat) (r : Bytes) : Bytes :=
  l.take i ++ r ++ l.drop (i + r.length)

/-- The padded record stream the write_keyword_section loop appends: each
pair contributes pad(keyword ++ 0x2D ++ content). -/
def kwData (pairs : List (Bytes × Bytes)) (padding : Nat) : Bytes :=
  (pairs.map (fun p => padRecord (kwRecord p) padding)).flatten

/-- The padded record stream the write_embedding_section loop appends: each
pair contributes pad(vector bytes ++ 0x2D ++ content). -/
def embData (pairs : List (Bytes × Bytes)) (padding : Nat) : Bytes :=
  (pairs.map (fun p => padRecord (p.1 ++ 45 :: p.2) padding)).flatten

/-- RAGFileWriter.write_keyword_section.  The Except.error result models the
exception raised by the alignment assert, which precedes every mutation, so
the writer object state is unchanged in that case. -/
def writeKeywordSection (pairs : List (Bytes × Bytes)) (padding : Nat)
    (s : WriterState) : Except Unit WriterState :=
  if padding = 4 ∨ padding = 8 ∨ padding = 16 then
    let start := s.buf.length
    let buf1 := s.buf ++ u64le 0 ++ u64le 0 ++ [padding]
    let dataStart := buf1.length
    let buf2 := buf1 ++ kwData pairs padding
    let dataEnd := buf2.length
    let buf3 := setRange buf2 start (u64le dataStart)
    let buf4 := setRange buf3 (start + 8) (u64le dataEnd)
    Except.ok ⟨buf4, s.index_entries ++ [(kwToken, dataStart, dataEnd)]⟩
  else Except.error ()

/-- RAGFileWriter.write_embedding_section.  Each pair carries the serialized
vector bytes (emb.astype(...).tobytes()) and the content bytes; the record
body is vector bytes, one 0x2D delimiter, content. -/
def writeEmbeddingSection (pairs : List (Bytes × Bytes)) (padding precision : Nat)
    (s : WriterState) : Except Unit WriterState :=
  if padding = 4 ∨ padding = 8 ∨ padding = 16 then
    if precision = 16 ∨ precision = 32 then
      let start := s.buf.length
      let buf1 := s.buf ++ [precision] ++ u64le 0 ++ u64le 0 ++ [padding]
      let dataStart := buf1.length
      let buf2 := buf1 ++ embData pairs padding
      let dataEnd := buf2.length
      let buf3 := setRange buf2 (start + 1) (u64le dataStart)
      let buf4 := setRange buf3 (start + 9) (u64le dataEnd)
      Except.ok ⟨buf4, s.index_entries ++ [(vecToken, dataStart, dataEnd)]⟩
    else Except.error ()
  else Except.error ()

/-- ASCII decimal digits of n, via the fuel-indexed worker; fuel n + 1 always
suffices since n / 10 decreases. -/
def natBytesAux : Nat → Nat → Bytes
  | 0, _ => []
  | f + 1, n => if n < 10 then [48 + n] else natBytesAux f (n / 10) ++ [48 + n % 10]

/-- The bytes of str(n) for a natural number n. -/
def natBytes (n : Nat) : Bytes := natBytesAux (n + 1) n

/-- One index table entry: the f-string "{name}-({start},{end})" as bytes. -/
def encodeEntry (name : Bytes) (a b : Nat) : Bytes :=
  name ++ [45, 40] ++ natBytes a ++ [44] ++ natBytes b ++ [41]

/-- RAGFileWriter.write_index_strategy: build the text table, extend the
buffer when too short, then overwrite the bytes starting at offset 11. -/
def writeIndexStrategy (s : WriterState) : WriterState :=
  let table := (s.index_entries.map (fun t => encodeEntry t.1 t.2.1 t.2.2 ++ [0])).flatten
  let buf' := if s.buf.length < 11 + table.length
              then s.buf ++ List.replicate (11 + table.length - s.buf.length) 0
              else s.buf
  { s with buf := setRange buf' 11 table }

/-- RAGFileWriter.finalize: runs write_index_strategy and writes the buffer
to disk; the resulting file contents are the final buffer. -/
def finalizeBuf (s : WriterState) : Bytes := (writeIndexStrategy s).buf

/-- Helper for pySplit: prepend a byte to the first chunk. -/
def consHead (x : Nat) : List Bytes → List Bytes
  | [] => [[x]]
  | h :: t => (x :: h) :: t

/-- Python bytes.split(sep) for a one-byte separator: n separators yield
n + 1 chunks, empty chunks included. -/
def pySplit (sep : Nat) : Bytes → List Bytes
  | [] => [[]]
  | x :: t => if x = sep then [] :: pySplit sep t else consHead x (pySplit sep t)

/-- Python str.split on the two-character separator "-(" (bytes 45, 40),
scanning left to right over non-overlapping occurrences. -/
def splitSeq2 : Bytes → List Bytes
  | [] => [[]]
  | [x] => [[x]]
  | x :: y :: t =>
    if x = 45 ∧ y = 40 then [] :: splitSeq2 t else consHead x (splitSeq2 (y :: t))

/-- One step of parsing a decimal digit, used to model int(s) on the plain
digit strings the writer emits. -/
def digitStep (acc : Option Nat) (d : Nat) : Option Nat :=
  acc.bind fun a => if 48 ≤ d ∧ d ≤ 57 then some (a * 10 + (d - 48)) else none

/-- int(s) on a nonnegative plain decimal digit string; none models the
ValueError raised on malformed input. -/
def parseNat? (l : Bytes) : Option Nat :=
  if l = [] then none else l.foldl digitStep (some 0)

/-- The body of the per-entry try block in RAGFileReader.parse_index:
name and rest from splitting on "-(", then rest[:-1] split on ",", then two
int conversions.  none models the swallowed exception (the continue). -/
def parseEntry (entry : Bytes) : Option (Bytes × Nat × Nat) :=
  match splitSeq2 entry with
  | [name, rest] =>
    match pySplit 44 rest.dropLast with
    | [s1, s2] =>
      match parseNat? s1, parseNat? s2 with
      | some a, some b => some (name, a, b)
      | _, _ => none
    | _ => none
  | _ => none

/-- Python dict assignment d[k] = v on an association list. -/
def upsert (k : Bytes) (v : Nat × Nat) :
    List (Bytes × Nat × Nat) → List (Bytes × Nat × Nat)
  | [] => [(k, v.1, v.2)]
  | (n, w) :: t => if n = k then (n, v.1, v.2) :: t else (n, w) :: upsert k v t

/-- Python dict lookup on the association list built by upsert. -/
def dlookup (k : Bytes) : List (Bytes × Nat × Nat) → Option (Nat × Nat)
  | [] => none
  | (n, a, b) :: t => if n = k then some (a, b) else dlookup k t

/-- RAGFileReader.parse_index: seek to offset 11, read bytes until the first
0x00 or end of file, split the collected bytes on 0x00, and parse each
nonempty entry, silently skipping any that fail. -/
def parseIndex (file : Bytes) : List (Bytes × Nat × Nat) :=
  let raw := (file.drop 11).takeWhile (fun x => decide (x ≠ 0))
  (pySplit 0 raw).foldl
    (fun d ent =>
      if ent = [] then d
      else
        match parseEntry ent with
        | some (n, a, b) => upsert n (a, b) d
        | none => d) []

/-- The per-record body of the scan loop in search_keyword: skip records
with no 0x2D, split on the first 0x2D, keep the record when the decoded
keyword equals the query. -/
def recMatch (kw : Bytes) (r : Bytes) : Option (Bytes × Bytes) :=
  if 45 ∈ r then
    let k := r.takeWhile (fun x => decide (x ≠ 45))
    let v := r.drop (k.length + 1)
    if k = kw then some (k, v) else none
  else none

/-- Matches contributed by one mapped block: split the block on 0x00 and
filter each chunk through recMatch. -/
def blockMatches (kw : Bytes) (block : Bytes) : List (Bytes × Bytes) :=
  (pySplit 0 block).filterMap (recMatch kw)

/-- The while loop of search_keyword.  The fuel argument is exact: the loop
runs while pos < stop, each iteration reads the slice
file[pos : pos + chunk] (clamped to the file length, not to stop), breaks on
an empty block, and advances pos by the block length, at least 1; so
stop - pos bounds the remaining iteration count and fuel stop - pos makes
the fuel recursion equal to the unbounded loop (searchLoopF_fuel below). -/
def searchLoopF : Nat → Bytes → Bytes → Nat → Nat → Nat → List (Bytes × Bytes)
  | 0, _, _, _, _, _ => []
  | fuel + 1, file, kw, chunk, pos, stop =>
    if pos < stop then
      let block := (file.drop pos).take chunk
      if block = [] then []
      else blockMatches kw block ++ searchLoopF fuel file kw chunk (pos + block.length) stop
    else []

/-- RAGFileReader.search_keyword on a fresh reader: parse the index, return
[] when no "keyword" entry is cached, else run the chunked scan from start
to end with chunk size padding * 256. -/
def searchKeyword (file : Bytes) (kw : Bytes) (padding : Nat) : List (Bytes × Bytes) :=
  match dlookup kwToken (parseIndex file) with
  | none => []
  | some (a, b) => searchLoopF (b - a) file kw (padding * 256) a b

/-- The write_header, write_keyword_section, finalize pipeline used by the
benchmark (keyword_bench.py); returns the file bytes.  The error branch is
unreachable for valid alignments. -/
def buildKeywordFile (pairs : List (Bytes × Bytes)) (padding : Nat) : Bytes :=
  match writeKeywordSection pairs padding (writeHeader 0 1 0 initWriter) with
  | Except.ok st => finalizeBuf st
  | Except.error _ => []

/-- Whether the two-byte pattern "-(" occurs in a byte string. -/
def hasPat : Bytes → Bool
  | x :: y :: t => (decide (x = 45) && decide (y = 40)) || hasPat (y :: t)
  | _ => false

instance : DecidableEq (Except Unit WriterState) := fun a b =>
  match a, b with
  | Except.ok x, Except.ok y =>
    if h : x = y then isTrue (by rw [h]) else isFalse (by intro hh; exact h (Except.ok.inj hh))
  | Except.error x, Except.error y => isTrue (by cases x; cases y; rfl)
  | Except.ok _, Except.error _ => isFalse (by intro hh; exact Except.noConfusion hh)
  | Except.error _, Except.ok _ => isFalse (by intro hh; exact Except.noConfusion hh)

/-- Unwrap a writer call that is known to succeed; the error branch is never
taken in the concrete scenarios below. -/
def orState (r : Except Unit WriterState) : WriterState :=
  match r with
  | Except.ok s => s
  | Except.error _ => initWriter

/-- Writer state after write_header and two write_keyword_section calls,
one pair each, alignment 8 (used to exhibit the finalize overwrite). -/
def c1state : WriterState :=
  orState (writeKeywordSection [([99, 100], [101, 102])] 8
    (orState (writeKeywordSection [([97, 98], [120, 121])] 8 (writeHeader 0 1 0 initWriter))))

/-- A hand-built file: 11 header bytes, an index entry naming the byte range
28 to 36 for the keyword section, its 0x00 terminator, one filler byte, one
record inside the range at 28 to 36, and one record past the range at 36 to
44. -/
def c4file : Bytes :=
  magicBytes ++ [0, 1, 0, 0] ++ encodeEntry kwToken 28 36 ++ [0] ++ [0] ++
    [97, 98, 45, 120, 121, 0, 0, 0] ++ [97, 98, 45, 122, 122, 0, 0, 0]

/-- The same file with one byte of the never-validated magic changed, used
to witness that bytes below the section start cannot affect search. -/
def c4fileAlt : Bytes :=
  [82, 65, 71, 70, 73, 0, 69] ++ [0, 1, 0, 0] ++ encodeEntry kwToken 28 36 ++ [0] ++ [0] ++
    [97, 98, 45, 120, 121, 0, 0, 0] ++ [97, 98, 45, 122, 122, 0, 0, 0]

example : padRecord (kwRecord ([97, 98], [120, 121])) 8 =
    [97, 98, 45, 120, 121, 0, 0, 0] := by decide

example : natBytes 28 = [50, 56] := by decide

example : buildKeywordFile [([97, 98], [120, 121])] 8 =
    magicBytes ++ [0, 1, 0, 0] ++
    [107, 101, 121, 119, 111, 114, 100, 45, 40, 50, 56, 44, 51, 54, 41, 0] ++
    [8] ++ [97, 98, 45, 120, 121, 0, 0, 0] := by decide

example : searchKeyword (buildKeywordFile [([97, 98], [120, 121])] 8) [97, 98] 8 =
    [([97, 98], [120, 121])] := by decide

example : searchKeyword (buildKeywordFile [([97, 98], [120, 121])] 8) [122, 122] 8 =
    [] := by decide

theorem u64le_length (v : Nat) : (u64le v).length = 8 := rfl

theorem setRange_mid (a b c r : Bytes) (i : Nat) (hi : i = a.length)
    (hr : r.length = b.length) : setRange (a ++ (b ++ c)) i r = a ++ (r ++ c) := by
  subst hi
  unfold setRange
  rw [List.take_left, hr]
  have h2 : (a ++ (b ++ c)).drop (a.length + b.length) = c := by
    rw [← List.length_append a b, ← List.append_assoc]
    exact List.drop_left (a ++ b) c
  rw [h2, List.append_assoc]

theorem patch_pair (B R : Bytes) (pad d e i1 i2 : Nat) (h1 : i1 = B.length)
    (h2 : i2 = B.length + 8) :
    setRange (setRange (B ++ (u64le 0 ++ (u64le 0 ++ ([pad] ++ R)))) i1 (u64le d))
        i2 (u64le e) =
      B ++ (u64le d ++ (u64le e ++ ([pad] ++ R))) := by
  rw [setRange_mid B (u64le 0) (u64le 0 ++ ([pad] ++ R)) (u64le d) i1 h1 rfl]
  rw [← List.append_assoc B (u64le d) (u64le 0 ++ ([pad] ++ R))]
  rw [setRange_mid (B ++ u64le d) (u64le 0) ([pad] ++ R) (u64le e) i2
    (by simp [u64le, h2]) rfl]
  rw [List.append_assoc]

theorem writeKeywordSection_eq (pairs : List (Bytes × Bytes)) (padding : Nat)
    (s : WriterState) (h : padding = 4 ∨ padding = 8 ∨ padding = 16) :
    writeKeywordSection pairs padding s = Except.ok
      ⟨s.buf ++ (u64le (s.buf.length + 17) ++
          (u64le (s.buf.length + 17 + (kwData pairs padding).length) ++
            ([padding] ++ kwData pairs padding))),
        s.index_entries ++ [(kwToken, s.buf.length + 17,
          s.buf.length + 17 + (kwData pairs padding).length)]⟩ := by
  unfold writeKeywordSection
  rw [if_pos h]
  have hb1 : (s.buf ++ u64le 0 ++ u64le 0 ++ [padding]).length = s.buf.length + 17 := by
    simp [u64le]
  have hb2 : (s.buf ++ u64le 0 ++ u64le 0 ++ [padding] ++ kwData pairs padding).length
      = s.buf.length + 17 + (kwData pairs padding).length := by
    simp [u64le]; omega
  dsimp only
  rw [hb1, hb2]
  have hassoc : s.buf ++ u64le 0 ++ u64le 0 ++ [padding] ++ kwData pairs padding
      = s.buf ++ (u64le 0 ++ (u64le 0 ++ ([padding] ++ kwData pairs padding))) := by
    simp [List.append_assoc]
  rw [hassoc, patch_pair s.buf (kwData pairs padding) padding _ _ _ _ rfl rfl]

theorem writeEmbeddingSection_eq (pairs : List (Bytes × Bytes)) (padding precision : Nat)
    (s : WriterState) (h : padding = 4 ∨ padding = 8 ∨ padding = 16)
    (hp : precision = 16 ∨ precision = 32) :
    writeEmbeddingSection pairs padding precision s = Except.ok
      ⟨s.buf ++ ([precision] ++ (u64le (s.buf.length + 18) ++
          (u64le (s.buf.length + 18 + (embData pairs padding).length) ++
            ([padding] ++ embData pairs padding)))),
        s.index_entries ++ [(vecToken, s.buf.length + 18,
          s.buf.length + 18 + (embData pairs padding).length)]⟩ := by
  unfold writeEmbeddingSection
  rw [if_pos h, if_pos hp]
  have hb1 : (s.buf ++ [precision] ++ u64le 0 ++ u64le 0 ++ [padding]).length
      = s.buf.length + 18 := by simp [u64le]
  have hb2 : (s.buf ++ [precision] ++ u64le 0 ++ u64le 0 ++ [padding]
        ++ embData pairs padding).length
      = s.buf.length + 18 + (embData pairs padding).length := by
    simp [u64le]; omega
  dsimp only
  rw [hb1, hb2]
  have hassoc : s.buf ++ [precision] ++ u64le 0 ++ u64le 0 ++ [padding] ++ embData pairs padding
      = (s.buf ++ [precision]) ++ (u64le 0 ++ (u64le 0 ++ ([padding] ++ embData pairs padding))) := by
    simp [List.append_assoc]
  rw [hassoc]
  rw [patch_pair (s.buf ++ [precision]) (embData pairs padding) padding _ _
    (s.buf.length + 1) (s.buf.length + 9) (by simp) (by simp)]
  rw [List.append_assoc]

theorem natBytesAux_stable : ∀ f g n, n < f → n < g → natBytesAux f n = natBytesAux g n
  | 0, _, _, hf, _ => absurd hf (by omega)
  | _ + 1, 0, _, _, hg => absurd hg (by omega)
  | f + 1, g + 1, n, hf, hg => by
    unfold natBytesAux
    by_cases h10 : n < 10
    · simp [h10]
    · have hd : n / 10 < n := Nat.div_lt_self (by omega) (by omega)
      simp only [h10, if_false]
      rw [natBytesAux_stable f g (n / 10) (by omega) (by omega)]

theorem natBytes_unfold (n : Nat) :
    natBytes n = if n < 10 then [48 + n] else natBytes (n / 10) ++ [48 + n % 10] := by
  conv_lhs => unfold natBytes natBytesAux
  by_cases h10 : n < 10
  · simp [h10]
  · have hd : n / 10 < n := Nat.div_lt_self (by omega) (by omega)
    simp only [h10, if_false]
    rw [natBytesAux_stable n (n / 10 + 1) (n / 10) (by omega) (by omega)]
    rfl

theorem natBytesAux_digits : ∀ f n, n < f → ∀ d ∈ natBytesAux f n, 48 ≤ d ∧ d ≤ 57
  | 0, _, hf => absurd hf (by omega)
  | f + 1, n, hf => by
    intro d hd
    unfold natBytesAux at hd
    by_cases h10 : n < 10
    · simp [h10] at hd
      omega
    · have hlt : n / 10 < f := by
        have := Nat.div_lt_self (show 0 < n by omega) (show 1 < 10 by omega)
        omega
      simp only [h10, if_false, List.mem_append, List.mem_singleton] at hd
      rcases hd with hd | hd
      · exact natBytesAux_digits f (n / 10) hlt d hd
      · have hm : n % 10 < 10 := Nat.mod_lt _ (by omega)
        omega

theorem natBytes_digits (n : Nat) : ∀ d ∈ natBytes n, 48 ≤ d ∧ d ≤ 57 :=
  natBytesAux_digits (n + 1) n (by omega)

theorem natBytesAux_ne_nil : ∀ f n, n < f → natBytesAux f n ≠ []
  | 0, _, hf => absurd hf (by omega)
  | f + 1, n, _ => by
    unfold natBytesAux
    by_cases h10 : n < 10 <;> simp [h10]

theorem foldl_digitStep_natBytesAux : ∀ f n acc, n < f →
    List.foldl digitStep (some acc) (natBytesAux f n) =
      some (acc * 10 ^ (natBytesAux f n).length + n)
  | 0, _, _, hf => absurd hf (by omega)
  | f + 1, n, acc, hf => by
    by_cases h10 : n < 10
    · rw [show natBytesAux (f + 1) n = [48 + n] from by simp [natBytesAux, h10]]
      simp only [List.foldl_cons, List.foldl_nil, digitStep, Option.bind]
      have hcond : 48 ≤ 48 + n ∧ 48 + n ≤ 57 := by omega
      rw [if_pos hcond, List.length_singleton, pow_one]
      simp only [Option.some.injEq]
      omega
    · have hlt : n / 10 < f := by
        have := Nat.div_lt_self (show 0 < n by omega) (show 1 < 10 by omega)
        omega
      rw [show natBytesAux (f + 1) n = natBytesAux f (n / 10) ++ [48 + n % 10] from by
        simp [natBytesAux, h10]]
      rw [List.foldl_append]
      rw [foldl_digitStep_natBytesAux f (n / 10) acc hlt]
      have hm : n % 10 < 10 := Nat.mod_lt _ (by omega)
      simp only [List.foldl_cons, List.foldl_nil, digitStep, Option.bind,
        List.length_append, List.length_singleton]
      have hcond : 48 ≤ 48 + n % 10 ∧ 48 + n % 10 ≤ 57 := by omega
      rw [if_pos hcond]
      have hp : acc * 10 ^ ((natBytesAux f (n / 10)).length + 1)
          = acc * 10 ^ (natBytesAux f (n / 10)).length * 10 := by ring
      rw [hp]
      simp only [Option.some.injEq]
      generalize acc * 10 ^ (natBytesAux f (n / 10)).length = t
      have := Nat.div_add_mod n 10
      omega

theorem parseNat?_natBytes (n : Nat) : parseNat? (natBytes n) = some n := by
  unfold parseNat? natBytes
  rw [if_neg (natBytesAux_ne_nil (n + 1) n (by omega))]
  rw [foldl_digitStep_natBytesAux (n + 1) n 0 (by omega)]
  simp

theorem natBytes_length_le : ∀ k n, n < 10 ^ (k + 1) → (natBytes n).length ≤ k + 1
  | 0, n, h => by
    rw [natBytes_unfold, if_pos (by simpa using h)]
    simp
  | k + 1, n, h => by
    rw [natBytes_unfold]
    by_cases h10 : n < 10
    · simp [h10]
    · have hdiv : n / 10 < 10 ^ (k + 1) := by
        rw [Nat.div_lt_iff_lt_mul (by omega)]
        calc n < 10 ^ (k + 2) := h
          _ = 10 ^ (k + 1) * 10 := by ring
      have ih := natBytes_length_le k (n / 10) hdiv
      simp only [h10, if_false, List.length_append, List.length_singleton]
      omega

theorem pySplit_no_sep (sep : Nat) : ∀ l : Bytes, sep ∉ l → pySplit sep l = [l]
  | [], _ => rfl
  | x :: t, h => by
    have hx : ¬x = sep := fun he => h (by rw [he]; exact List.mem_cons_self _ _)
    have ht : sep ∉ t := fun hm => h (List.mem_cons_of_mem _ hm)
    simp only [pySplit, if_neg hx]
    rw [pySplit_no_sep sep t ht]
    rfl

theorem pySplit_append (sep : Nat) : ∀ xs rest, sep ∉ xs →
    pySplit sep (xs ++ sep :: rest) = xs :: pySplit sep rest
  | [], rest, _ => by simp [pySplit]
  | x :: xs, rest, h => by
    have hx : ¬x = sep := fun he => h (by rw [he]; exact List.mem_cons_self _ _)
    have ht : sep ∉ xs := fun hm => h (List.mem_cons_of_mem _ hm)
    rw [List.cons_append]
    show pySplit sep (x :: (xs ++ sep :: rest)) = _
    rw [show pySplit sep (x :: (xs ++ sep :: rest))
        = consHead x (pySplit sep (xs ++ sep :: rest)) from by simp [pySplit, hx]]
    rw [pySplit_append sep xs rest ht]
    rfl

theorem takeWhile_until (c : Nat) : ∀ xs rest, c ∉ xs →
    (xs ++ c :: rest).takeWhile (fun x => decide (x ≠ c)) = xs
  | [], rest, _ => by simp [List.takeWhile_cons]
  | x :: xs, rest, h => by
    have hx : ¬x = c := fun he => h (by rw [he]; exact List.mem_cons_self _ _)
    have ht : c ∉ xs := fun hm => h (List.mem_cons_of_mem _ hm)
    simp only [List.cons_append, List.takeWhile_cons, decide_eq_true_eq]
    rw [if_pos hx, takeWhile_until c xs rest ht]

theorem hasPat_false (x y : Nat) (t : Bytes) (h : hasPat (x :: y :: t) = false) :
    ¬(x = 45 ∧ y = 40) ∧ hasPat (y :: t) = false := by
  have h' : (decide (x = 45) && decide (y = 40)) = false ∧ hasPat (y :: t) = false := by
    rw [← Bool.or_eq_false_iff]
    exact h
  refine ⟨?_, h'.2⟩
  rintro ⟨h1, h2⟩
  rw [h1, h2] at h'
  simp at h'

theorem splitSeq2_no45 : ∀ l : Bytes, 45 ∉ l → splitSeq2 l = [l]
  | [], _ => rfl
  | [_], _ => rfl
  | x :: y :: t, h => by
    have hx : ¬x = 45 := fun he => h (by rw [he]; exact List.mem_cons_self _ _)
    have ht : (45 : Nat) ∉ y :: t := fun hm => h (List.mem_cons_of_mem _ hm)
    rw [show splitSeq2 (x :: y :: t) = consHead x (splitSeq2 (y :: t)) from by
      simp [splitSeq2, hx]]
    rw [splitSeq2_no45 (y :: t) ht]
    rfl

theorem splitSeq2_sep : ∀ name rest : Bytes, hasPat name = false →
    splitSeq2 (name ++ 45 :: 40 :: rest) = name :: splitSeq2 rest
  | [], rest, _ => by simp [splitSeq2]
  | [x], rest, _ => by
    rw [List.cons_append, List.nil_append]
    rw [show splitSeq2 (x :: 45 :: 40 :: rest) = consHead x (splitSeq2 (45 :: 40 :: rest)) from by
      simp [splitSeq2]]
    rw [show splitSeq2 ((45 : Nat) :: 40 :: rest) = [] :: splitSeq2 rest from by
      simp [splitSeq2]]
    rfl
  | x :: y :: name, rest, h => by
    obtain ⟨hp, ht⟩ := hasPat_false x y name h
    rw [List.cons_append, List.cons_append]
    rw [show splitSeq2 (x :: y :: (name ++ 45 :: 40 :: rest))
        = consHead x (splitSeq2 (y :: (name ++ 45 :: 40 :: rest))) from by
      simp [splitSeq2, hp]]
    rw [← List.cons_append]
    rw [splitSeq2_sep (y :: name) rest ht]
    rfl

theorem not_mem_natBytes (c n : Nat) (h : c < 48 ∨ 57 < c) : c ∉ natBytes n := by
  intro hm
  have := natBytes_digits n c hm
  omega

theorem not_mem_encodeEntry_zero (name : Bytes) (a b : Nat) (h0 : (0 : Nat) ∉ name) :
    (0 : Nat) ∉ encodeEntry name a b := by
  intro hm
  unfold encodeEntry at hm
  simp only [List.mem_append, List.mem_cons, List.mem_singleton, List.not_mem_nil,
    or_false] at hm
  rcases hm with ((((hm | hm) | hm) | hm) | hm) | hm
  · exact h0 hm
  · omega
  · exact not_mem_natBytes 0 a (by omega) hm
  · omega
  · exact not_mem_natBytes 0 b (by omega) hm
  · omega

theorem encodeEntry_ne_nil (name : Bytes) (a b : Nat) : encodeEntry name a b ≠ [] := by
  unfold encodeEntry
  simp

theorem parseEntry_encodeEntry (name : Bytes) (a b : Nat) (h : hasPat name = false) :
    parseEntry (encodeEntry name a b) = some (name, a, b) := by
  have henc : encodeEntry name a b
      = name ++ 45 :: 40 :: (natBytes a ++ 44 :: (natBytes b ++ [41])) := by
    unfold encodeEntry
    simp
  have h45 : (45 : Nat) ∉ natBytes a ++ 44 :: (natBytes b ++ [41]) := by
    simp only [List.mem_append, List.mem_cons, List.mem_singleton, List.not_mem_nil,
      or_false]
    rintro (hm | hm | hm | hm)
    · exact not_mem_natBytes 45 a (by omega) hm
    · omega
    · exact not_mem_natBytes 45 b (by omega) hm
    · omega
  have hdl : (natBytes a ++ 44 :: (natBytes b ++ [41])).dropLast
      = natBytes a ++ 44 :: natBytes b := by
    rw [show natBytes a ++ 44 :: (natBytes b ++ [41])
        = (natBytes a ++ 44 :: natBytes b) ++ [41] from by simp]
    exact List.dropLast_concat
  unfold parseEntry
  rw [henc, splitSeq2_sep name _ h, splitSeq2_no45 _ h45]
  dsimp only
  rw [hdl]
  rw [pySplit_append 44 (natBytes a) _ (not_mem_natBytes 44 a (by omega))]
  rw [pySplit_no_sep 44 (natBytes b) (not_mem_natBytes 44 b (by omega))]
  dsimp only
  rw [parseNat?_natBytes, parseNat?_natBytes]

theorem parseIndex_single (pre tail name : Bytes) (a b : Nat) (hpre : pre.length = 11)
    (h0 : (0 : Nat) ∉ name) (hp : hasPat name = false) :
    parseIndex (pre ++ (encodeEntry name a b ++ 0 :: tail)) = [(name, a, b)] := by
  unfold parseIndex
  rw [List.drop_left' hpre]
  rw [takeWhile_until 0 (encodeEntry name a b) tail (not_mem_encodeEntry_zero name a b h0)]
  dsimp only
  rw [pySplit_no_sep 0 (encodeEntry name a b) (not_mem_encodeEntry_zero name a b h0)]
  dsimp only [List.foldl_cons, List.foldl_nil]
  rw [if_neg (encodeEntry_ne_nil name a b)]
  rw [parseEntry_encodeEntry name a b hp]
  rfl

theorem searchLoopF_stop (f : Nat) (file kw : Bytes) (chunk pos stop : Nat)
    (h : ¬pos < stop) : searchLoopF f file kw chunk pos stop = [] := by
  cases f
  · rfl
  · simp [searchLoopF, h]

theorem searchLoopF_congr : ∀ (f : Nat) (fileA fileB kw : Bytes) (chunk pos stop a : Nat),
    a ≤ pos → fileA.drop a = fileB.drop a →
    searchLoopF f fileA kw chunk pos stop = searchLoopF f fileB kw chunk pos stop
  | 0, _, _, _, _, _, _, _, _, _ => rfl
  | f + 1, fileA, fileB, kw, chunk, pos, stop, a, ha, hsuf => by
    have hdrop : fileA.drop pos = fileB.drop pos := by
      calc fileA.drop pos = (fileA.drop a).drop (pos - a) := by
            rw [List.drop_drop]
            congr 1
            omega
        _ = (fileB.drop a).drop (pos - a) := by rw [hsuf]
        _ = fileB.drop pos := by
            rw [List.drop_drop]
            congr 1
            omega
    by_cases hlt : pos < stop
    · simp only [searchLoopF, if_pos hlt, hdrop]
      by_cases hb : (fileB.drop pos).take chunk = []
      · simp [hb]
      · simp only [if_neg hb]
        rw [searchLoopF_congr f fileA fileB kw chunk
          (pos + ((fileB.drop pos).take chunk).length) stop a (by omega) hsuf]
    · rw [searchLoopF_stop _ _ _ _ _ _ hlt, searchLoopF_stop _ _ _ _ _ _ hlt]

theorem padLen_pos (l : Bytes) (padding : Nat)
    (hpad : padding = 4 ∨ padding = 8 ∨ padding = 16)
    (hm : l.length % padding ≠ 0) : 0 < padLenF l padding := by
  unfold padLenF
  rcases hpad with rfl | rfl | rfl <;> omega

theorem recMatch_nil (q : Bytes) : recMatch q [] = none := rfl

theorem recMatch_body (q k c : Bytes) (h45 : (45 : Nat) ∉ k) :
    recMatch q (k ++ 45 :: c) = if k = q then some (k, c) else none := by
  unfold recMatch
  rw [if_pos (show (45 : Nat) ∈ k ++ 45 :: c from
    List.mem_append_right _ (List.mem_cons_self _ _))]
  rw [takeWhile_until 45 k c h45]
  dsimp only
  rw [show (k ++ 45 :: c).drop (k.length + 1) = c from by
    rw [List.drop_append 1]
    rfl]

theorem filterMap_pySplit_zeros (q : Bytes) : ∀ (m : Nat) (rest : Bytes),
    (pySplit 0 (List.replicate m 0 ++ rest)).filterMap (recMatch q)
      = (pySplit 0 rest).filterMap (recMatch q)
  | 0, _ => rfl
  | m + 1, rest => by
    rw [List.replicate_succ, List.cons_append]
    rw [show pySplit 0 ((0 : Nat) :: (List.replicate m 0 ++ rest))
        = [] :: pySplit 0 (List.replicate m 0 ++ rest) from by simp [pySplit]]
    simp only [List.filterMap_cons, recMatch_nil]
    exact filterMap_pySplit_zeros q m rest

theorem blockMatches_stream (q : Bytes) (padding : Nat)
    (hpad : padding = 4 ∨ padding = 8 ∨ padding = 16) :
    ∀ pairs : List (Bytes × Bytes),
    (∀ p ∈ pairs, (0 : Nat) ∉ p.1 ∧ (0 : Nat) ∉ p.2 ∧ (45 : Nat) ∉ p.1) →
    (∀ p ∈ pairs, (kwRecord p).length % padding ≠ 0) →
    blockMatches q (kwData pairs padding) = pairs.filter (fun p => decide (p.1 = q))
  | [], _, _ => rfl
  | p :: ps, hf, hl => by
    obtain ⟨h01, h02, h45⟩ := hf p (List.mem_cons_self _ _)
    have hpos : 0 < padLenF (kwRecord p) padding :=
      padLen_pos _ padding hpad (hl p (List.mem_cons_self _ _))
    obtain ⟨m, hm⟩ : ∃ m, padLenF (kwRecord p) padding = m + 1 :=
      ⟨padLenF (kwRecord p) padding - 1, by omega⟩
    have hstream : kwData (p :: ps) padding
        = kwRecord p ++ 0 :: (List.replicate m 0 ++ kwData ps padding) := by
      unfold kwData padRecord
      rw [List.map_cons, List.flatten_cons, hm, List.replicate_succ]
      simp [List.append_assoc]
    have h0body : (0 : Nat) ∉ kwRecord p := by
      unfold kwRecord
      simp only [List.mem_append, List.mem_cons]
      rintro (hm' | hm' | hm')
      · exact h01 hm'
      · omega
      · exact h02 hm'
    have hIH := blockMatches_stream q padding hpad ps
      (fun r hr => hf r (List.mem_cons_of_mem _ hr))
      (fun r hr => hl r (List.mem_cons_of_mem _ hr))
    unfold blockMatches at hIH ⊢
    rw [hstream, pySplit_append 0 (kwRecord p) _ h0body]
    rw [List.filterMap_cons]
    rw [show recMatch q (kwRecord p) = if p.1 = q then some (p.1, p.2) else none from
      recMatch_body q p.1 p.2 h45]
    rw [List.filter_cons]
    by_cases hq : p.1 = q
    · rw [if_pos hq]
      dsimp only
      rw [if_pos (show decide (p.1 = q) = true by simp [hq])]
      rw [filterMap_pySplit_zeros q m _, hIH, Prod.mk.eta]
    · rw [if_neg hq]
      dsimp only
      rw [if_neg (show ¬decide (p.1 = q) = true by simp [hq])]
      rw [filterMap_pySplit_zeros q m _, hIH]

theorem setRange_overwrite (pre mid suf r : Bytes) (i : Nat) (hi : i = pre.length)
    (hle : r.length ≤ mid.length) :
    setRange (pre ++ (mid ++ suf)) i r = pre ++ (r ++ (mid.drop r.length ++ suf)) := by
  subst hi
  unfold setRange
  rw [List.take_left]
  have hd : (pre ++ (mid ++ suf)).drop (pre.length + r.length)
      = mid.drop r.length ++ suf := by
    rw [List.drop_append]
    exact List.drop_append_of_le_length hle
  rw [hd, List.append_assoc]

theorem blockMatches_nil (q : Bytes) : blockMatches q [] = [] := rfl

theorem searchKeyword_eq_loop (file kw : Bytes) (padding a b : Nat)
    (h : dlookup kwToken (parseIndex file) = some (a, b)) :
    searchKeyword file kw padding = searchLoopF (b - a) file kw (padding * 256) a b := by
  unfold searchKeyword
  rw [h]

theorem searchKeyword_single (pre R q : Bytes) (padding : Nat)
    (hpre : pre.length = 11)
    (hpad : padding = 4 ∨ padding = 8 ∨ padding = 16)
    (hsize : 28 + R.length ≤ 999) :
    searchKeyword (finalizeBuf
      ⟨pre ++ (u64le 28 ++ (u64le (28 + R.length) ++ ([padding] ++ R))),
        [(kwToken, 28, 28 + R.length)]⟩) q padding = blockMatches q R := by
  have hd3 : (natBytes (28 + R.length)).length ≤ 3 :=
    natBytes_length_le 2 _ (by rw [show (10 : Nat) ^ (2 + 1) = 1000 from by norm_num]; omega)
  have hTlen : (encodeEntry kwToken 28 (28 + R.length)).length
      = 13 + (natBytes (28 + R.length)).length := by
    unfold encodeEntry
    rw [show natBytes 28 = [50, 56] from rfl]
    simp only [List.length_append, List.length_cons, List.length_nil, kwToken]
    omega
  have hbuflen : (pre ++ (u64le 28 ++ (u64le (28 + R.length) ++ ([padding] ++ R)))).length
      = 28 + R.length := by
    simp [u64le, hpre]
    omega
  unfold finalizeBuf writeIndexStrategy
  dsimp only
  rw [show (([(kwToken, 28, 28 + R.length)] : List (Bytes × Nat × Nat)).map
      (fun t => encodeEntry t.1 t.2.1 t.2.2 ++ [0])).flatten
      = encodeEntry kwToken 28 (28 + R.length) ++ [0] from by simp]
  have hcond : ¬(pre ++ (u64le 28 ++ (u64le (28 + R.length) ++ ([padding] ++ R)))).length
      < 11 + (encodeEntry kwToken 28 (28 + R.length) ++ [0]).length := by
    rw [hbuflen]
    simp only [List.length_append, List.length_singleton]
    omega
  rw [if_neg hcond]
  have hshape : pre ++ (u64le 28 ++ (u64le (28 + R.length) ++ ([padding] ++ R)))
      = pre ++ ((u64le 28 ++ (u64le (28 + R.length) ++ [padding])) ++ R) := by
    simp [List.append_assoc]
  rw [hshape]
  rw [setRange_overwrite pre (u64le 28 ++ (u64le (28 + R.length) ++ [padding])) R
    (encodeEntry kwToken 28 (28 + R.length) ++ [0]) 11 hpre.symm
    (by simp [u64le]; omega)]
  simp only [List.append_assoc, List.singleton_append]
  have hM17 : (u64le 28 ++ (u64le (28 + R.length) ++ [padding])).length = 17 := by
    simp [u64le]
  have hsplit : pre ++ (encodeEntry kwToken 28 (28 + R.length) ++ 0 ::
      ((u64le 28 ++ (u64le (28 + R.length) ++ [padding])).drop
        (encodeEntry kwToken 28 (28 + R.length) ++ [0]).length ++ R))
      = (pre ++ (encodeEntry kwToken 28 (28 + R.length) ++ 0 ::
          (u64le 28 ++ (u64le (28 + R.length) ++ [padding])).drop
            (encodeEntry kwToken 28 (28 + R.length) ++ [0]).length)) ++ R := by
    simp only [List.append_assoc, List.cons_append]
  have hPlen : (pre ++ (encodeEntry kwToken 28 (28 + R.length) ++ 0 ::
      (u64le 28 ++ (u64le (28 + R.length) ++ [padding])).drop
        (encodeEntry kwToken 28 (28 + R.length) ++ [0]).length)).length = 28 := by
    simp only [List.length_append, List.length_cons, List.length_drop, List.length_nil,
      hpre, hM17]
    omega
  have hdrop28 : (pre ++ (encodeEntry kwToken 28 (28 + R.length) ++ 0 ::
      ((u64le 28 ++ (u64le (28 + R.length) ++ [padding])).drop
        (encodeEntry kwToken 28 (28 + R.length) ++ [0]).length ++ R))).drop 28 = R := by
    rw [hsplit]
    exact List.drop_left' hPlen
  have h0k : (0 : Nat) ∉ kwToken := by decide
  have hpk : hasPat kwToken = false := by decide
  have hPI : parseIndex (pre ++ (encodeEntry kwToken 28 (28 + R.length) ++ 0 ::
      ((u64le 28 ++ (u64le (28 + R.length) ++ [padding])).drop
        (encodeEntry kwToken 28 (28 + R.length) ++ [0]).length ++ R)))
      = [(kwToken, 28, 28 + R.length)] :=
    parseIndex_single pre _ kwToken 28 (28 + R.length) hpre h0k hpk
  have hlook : dlookup kwToken [(kwToken, 28, 28 + R.length)] = some (28, 28 + R.length) := by
    simp [dlookup]
  rw [searchKeyword_eq_loop _ q padding 28 (28 + R.length) (by rw [hPI]; exact hlook)]
  by_cases hR : R = []
  · subst hR
    rfl
  · obtain ⟨m, hm⟩ : ∃ m, R.length = m + 1 :=
      ⟨R.length - 1, by have := List.length_pos.mpr hR; omega⟩
    rw [show 28 + R.length - 28 = m + 1 from by omega]
    simp only [searchLoopF]
    rw [if_pos (show 28 < 28 + R.length by omega)]
    rw [hdrop28]
    rw [List.take_of_length_le (show R.length ≤ padding * 256 from by
      rcases hpad with rfl | rfl | rfl <;> omega)]
    rw [if_neg hR]
    rw [searchLoopF_stop m _ _ _ _ _ (by omega)]
    rw [List.append_nil]

theorem buildKeywordFile_eq (pairs : List (Bytes × Bytes)) (padding : Nat)
    (st : WriterState)
    (h : writeKeywordSection pairs padding (writeHeader 0 1 0 initWriter) = Except.ok st) :
    buildKeywordFile pairs padding = finalizeBuf st := by
  unfold buildKeywordFile
  rw [h]

/-- C1: after write_header, two write_keyword_section calls and finalize, the
bytes of the first registered index range 28 to 36 no longer equal the padded
record stream that section wrote: finalize placed the 32-byte index table at
offset 11 and overwrote them with index-table text, while the pre-finalize
buffer still held the record.  This refutes the claim that index-table
placement leaves every previously written section byte intact. -/
theorem c1_finalize_overwrites_section :
    c1state.index_entries = [(kwToken, 28, 36), (kwToken, 53, 61)] ∧
    (c1state.buf.drop 28).take 8 = padRecord (kwRecord ([97, 98], [120, 121])) 8 ∧
    ((finalizeBuf c1state).drop 28).take 8 = [101, 121, 119, 111, 114, 100, 45, 40] ∧
    ((finalizeBuf c1state).drop 28).take 8 ≠ padRecord (kwRecord ([97, 98], [120, 121])) 8 :=
  ⟨by decide, by decide, by decide, by decide⟩

/-- C2 counterexample: writing the pairs (ab, xyz12) and (ab, cd) with
alignment 8 makes the first record exactly 8 bytes, so zero pad bytes
separate it from the next record; the reader merges both into one record and
search for ab returns one pair with content xyz12ab-cd instead of the two
written pairs, differing from the in-memory equality filter. -/
theorem c2_counterexample :
    searchKeyword (buildKeywordFile [([97, 98], [120, 121, 122, 49, 50]),
        ([97, 98], [99, 100])] 8) [97, 98] 8
      = [([97, 98], [120, 121, 122, 49, 50, 97, 98, 45, 99, 100])] ∧
    searchKeyword (buildKeywordFile [([97, 98], [120, 121, 122, 49, 50]),
        ([97, 98], [99, 100])] 8) [97, 98] 8
      ≠ ([([97, 98], [120, 121, 122, 49, 50]), ([97, 98], [99, 100])] :
          List (Bytes × Bytes)).filter (fun p => decide (p.1 = [97, 98])) :=
  ⟨by decide, by decide⟩

/-- C2 (amended): for pairs whose fields contain no 0x00 byte and whose
keywords contain no 0x2D byte, alignment in 4, 8, 16, and any query, the
write_header, write_keyword_section, finalize, search_keyword pipeline
returns exactly the pairs whose keyword equals the query, byte for byte,
provided additionally that no record byte length is an exact multiple of the
alignment (else adjacent records merge) and the section data ends at or
before offset 999 (else the finalize-time index table overwrite reaches the
record data; this bound also keeps the section inside one scan chunk). -/
theorem c2_amended_search_correct (pairs : List (Bytes × Bytes)) (padding : Nat) (q : Bytes)
    (hpad : padding = 4 ∨ padding = 8 ∨ padding = 16)
    (hfields : ∀ p ∈ pairs, (0 : Nat) ∉ p.1 ∧ (0 : Nat) ∉ p.2 ∧ (45 : Nat) ∉ p.1)
    (hlen : ∀ p ∈ pairs, (kwRecord p).length % padding ≠ 0)
    (hsize : 28 + (kwData pairs padding).length ≤ 999) :
    searchKeyword (buildKeywordFile pairs padding) q padding
      = pairs.filter (fun p => decide (p.1 = q)) := by
  rw [buildKeywordFile_eq pairs padding _
    (writeKeywordSection_eq pairs padding (writeHeader 0 1 0 initWriter) hpad)]
  rw [show (writeHeader 0 1 0 initWriter).buf.length = 11 from rfl]
  rw [show (11 : Nat) + 17 = 28 from rfl]
  rw [show (writeHeader 0 1 0 initWriter).index_entries = [] from rfl]
  rw [List.nil_append]
  rw [searchKeyword_single (writeHeader 0 1 0 initWriter).buf (kwData pairs padding)
    q padding rfl hpad hsize]
  exact blockMatches_stream q padding hpad pairs hfields hlen

/-- C2 witness: the amended statement applied to the single pair (ab, xy)
with alignment 8 and query ab. -/
theorem c2_amended_witness :
    ((8 : Nat) = 4 ∨ (8 : Nat) = 8 ∨ (8 : Nat) = 16) ∧
    (∀ p ∈ [(([97, 98] : Bytes), ([120, 121] : Bytes))],
      (0 : Nat) ∉ p.1 ∧ (0 : Nat) ∉ p.2 ∧ (45 : Nat) ∉ p.1) ∧
    (∀ p ∈ [(([97, 98] : Bytes), ([120, 121] : Bytes))], (kwRecord p).length % 8 ≠ 0) ∧
    28 + (kwData [([97, 98], [120, 121])] 8).length ≤ 999 ∧
    searchKeyword (buildKeywordFile [([97, 98], [120, 121])] 8) [97, 98] 8
      = ([([97, 98], [120, 121])] : List (Bytes × Bytes)).filter
          (fun p => decide (p.1 = [97, 98])) :=
  ⟨by decide, by decide, by decide, by decide,
    c2_amended_search_correct [([97, 98], [120, 121])] 8 [97, 98]
      (by decide) (by decide) (by decide) (by decide)⟩

/-- C3: when the region after offset 11 holds two or more 0x00-terminated
index entries, parse_index stops reading at the first 0x00 terminator, so
the cached mapping holds exactly the one entry preceding it; the second
entry and everything after it are ignored. -/
theorem c3_parse_index_first_entry_only (pre tail name n2 : Bytes) (a b a2 b2 : Nat)
    (hpre : pre.length = 11) (h0 : (0 : Nat) ∉ name) (hp : hasPat name = false) :
    parseIndex (pre ++ (encodeEntry name a b ++ 0 ::
        (encodeEntry n2 a2 b2 ++ 0 :: tail))) = [(name, a, b)] :=
  parseIndex_single pre (encodeEntry n2 a2 b2 ++ 0 :: tail) name a b hpre h0 hp

/-- C3 witness: a file with a keyword entry followed by a vector entry; only
the first is recovered. -/
theorem c3_witness :
    (magicBytes ++ [0, 1, 0, 0] : Bytes).length = 11 ∧
    (0 : Nat) ∉ kwToken ∧ hasPat kwToken = false ∧
    parseIndex ((magicBytes ++ [0, 1, 0, 0]) ++ (encodeEntry kwToken 1 2 ++ 0 ::
        (encodeEntry vecToken 3 4 ++ 0 :: []))) = [(kwToken, 1, 2)] :=
  ⟨by decide, by decide, by decide,
    c3_parse_index_first_entry_only (magicBytes ++ [0, 1, 0, 0]) [] kwToken vecToken
      1 2 3 4 (by decide) (by decide) (by decide)⟩

/-- C4 counterexample: in a file whose keyword index entry names the range
28 to 36, the record stored at 36 to 44, wholly outside the range, is read
and returned by search_keyword: the scan slices are clamped to the file
length, not to the entry end. -/
theorem c4_counterexample :
    parseIndex c4file = [(kwToken, 28, 36)] ∧
    searchKeyword c4file [97, 98] 8
      = [([97, 98], [120, 121]), ([97, 98], [122, 122])] :=
  ⟨by decide, by decide⟩

/-- C4 (amended): search_keyword never reads bytes below the resolved start:
whenever two files resolve the keyword entry to the same range and agree on
every byte from start onward, the search results coincide.  Bytes at or past
end are however read, as the counterexample shows. -/
theorem c4_amended_frame (f g q : Bytes) (padding a b : Nat)
    (hf : dlookup kwToken (parseIndex f) = some (a, b))
    (hg : dlookup kwToken (parseIndex g) = some (a, b))
    (hsuf : f.drop a = g.drop a) :
    searchKeyword f q padding = searchKeyword g q padding := by
  rw [searchKeyword_eq_loop f q padding a b hf, searchKeyword_eq_loop g q padding a b hg]
  exact searchLoopF_congr (b - a) f g q (padding * 256) a b a (le_refl a) hsuf

/-- C4 witness: changing a magic byte, below the section start and outside
everything the reader parses, leaves the search result unchanged. -/
theorem c4_amended_witness :
    dlookup kwToken (parseIndex c4file) = some (28, 36) ∧
    dlookup kwToken (parseIndex c4fileAlt) = some (28, 36) ∧
    c4file.drop 28 = c4fileAlt.drop 28 ∧
    searchKeyword c4file [97, 98] 8 = searchKeyword c4fileAlt [97, 98] 8 :=
  ⟨by decide, by decide, by decide,
    c4_amended_frame c4file c4fileAlt [97, 98] 8 28 36 (by decide) (by decide) (by decide)⟩

/-- C5 counterexample: a malformed index entry (xyz, no name-(start,end)
shape) is silently skipped, leaving an empty cache and raising nothing, and
an entry with start 9 greater than end 3 is accepted into the cache: no
FormatError behaviour exists in parse_index. -/
theorem c5_counterexample :
    parseIndex (magicBytes ++ [0, 1, 0, 0] ++ ([120, 121, 122] ++ [0])) = [] ∧
    parseIndex (magicBytes ++ [0, 1, 0, 0] ++ (encodeEntry kwToken 9 3 ++ [0]))
      = [(kwToken, 9, 3)] :=
  ⟨by decide, by decide⟩

/-- C5 (amended): decoding an entry never fails: a byte string matching the
name-(start,end) grammar is accepted for every start and end, with no
start less or equal end check, and a byte string with no 0x2D at all, which
cannot match the grammar, is silently skipped (parse returns none and the
loop continues). -/
theorem c5_amended_parse_entry (name entry : Bytes) (a b : Nat)
    (hp : hasPat name = false) (h45 : (45 : Nat) ∉ entry) :
    parseEntry (encodeEntry name a b) = some (name, a, b) ∧ parseEntry entry = none := by
  refine ⟨parseEntry_encodeEntry name a b hp, ?_⟩
  unfold parseEntry
  rw [splitSeq2_no45 entry h45]

/-- C5 witness: the entry keyword-(9,3) with start greater than end is
accepted; the entry xyz is skipped. -/
theorem c5_amended_witness :
    hasPat kwToken = false ∧ (45 : Nat) ∉ ([120, 121, 122] : Bytes) ∧
    (parseEntry (encodeEntry kwToken 9 3) = some (kwToken, 9, 3) ∧
      parseEntry [120, 121, 122] = none) :=
  ⟨by decide, by decide,
    c5_amended_parse_entry kwToken [120, 121, 122] 9 3 (by decide) (by decide)⟩

/-- C6: write_keyword_section with alignment outside 4, 8, 16 fails before
appending anything, and write_embedding_section fails likewise for a bad
alignment or a precision outside 16, 32; the error result carries no new
state, modelling that the assert precedes every buffer or index mutation, so
the writer object is left exactly as before the call. -/
theorem c6_invalid_arguments_rejected (s : WriterState)
    (kpairs epairs : List (Bytes × Bytes)) (padding precision : Nat) :
    (¬(padding = 4 ∨ padding = 8 ∨ padding = 16) →
      writeKeywordSection kpairs padding s = Except.error ()) ∧
    (¬(padding = 4 ∨ padding = 8 ∨ padding = 16) ∨ ¬(precision = 16 ∨ precision = 32) →
      writeEmbeddingSection epairs padding precision s = Except.error ()) := by
  constructor
  · intro h
    unfold writeKeywordSection
    rw [if_neg h]
  · intro h
    unfold writeEmbeddingSection
    rcases h with h | h
    · rw [if_neg h]
    · by_cases hp : padding = 4 ∨ padding = 8 ∨ padding = 16
      · rw [if_pos hp, if_neg h]
      · rw [if_neg hp]

/-- C6 witness: alignment 5 is rejected by the keyword writer and precision
33 by the embedding writer. -/
theorem c6_witness :
    writeKeywordSection [] 5 initWriter = Except.error () ∧
    writeEmbeddingSection [] 8 33 initWriter = Except.error () :=
  ⟨(c6_invalid_arguments_rejected initWriter [] [] 5 33).1 (by decide),
    (c6_invalid_arguments_rejected initWriter [] [] 8 33).2 (Or.inr (by decide))⟩

/-- C7: for alignment in 4, 8, 16, the padded record length is a multiple of
the alignment, the number of appended pad bytes is at most alignment minus
one, and the pad is a replicate of the byte 0x00. -/
theorem c7_padding_invariant (data : Bytes) (a : Nat)
    (ha : a = 4 ∨ a = 8 ∨ a = 16) :
    (padRecord data a).length % a = 0 ∧
    padLenF data a ≤ a - 1 ∧
    padRecord data a = data ++ List.replicate (padLenF data a) 0 := by
  refine ⟨?_, ?_, rfl⟩
  · unfold padRecord padLenF
    simp only [List.length_append, List.length_replicate]
    rcases ha with rfl | rfl | rfl <;> omega
  · unfold padLenF
    rcases ha with rfl | rfl | rfl <;> omega

/-- C7 witness: the record ab-xy of length 5 padded at alignment 8. -/
theorem c7_witness :
    ((8 : Nat) = 4 ∨ (8 : Nat) = 8 ∨ (8 : Nat) = 16) ∧
    ((padRecord [97, 98, 45, 120, 121] 8).length % 8 = 0 ∧
      padLenF [97, 98, 45, 120, 121] 8 ≤ 8 - 1 ∧
      padRecord [97, 98, 45, 120, 121] 8
        = [97, 98, 45, 120, 121] ++ List.replicate (padLenF [97, 98, 45, 120, 121] 8) 0) :=
  ⟨by decide, c7_padding_invariant [97, 98, 45, 120, 121] 8 (by decide)⟩

/-- C8: the concrete scenario: writing the single pair (ab, xy) with
alignment 8 serializes the record as the five bytes ab-xy plus exactly three
zero pad bytes, those eight bytes sit at offsets 28 to 36 of the finalized
file, search for ab returns exactly that pair and search for zz returns
nothing. -/
theorem c8_scenario :
    padRecord (kwRecord ([97, 98], [120, 121])) 8 = [97, 98, 45, 120, 121, 0, 0, 0] ∧
    (buildKeywordFile [([97, 98], [120, 121])] 8).drop 28
      = [97, 98, 45, 120, 121, 0, 0, 0] ∧
    searchKeyword (buildKeywordFile [([97, 98], [120, 121])] 8) [97, 98] 8
      = [([97, 98], [120, 121])] ∧
    searchKeyword (buildKeywordFile [([97, 98], [120, 121])] 8) [122, 122] 8 = [] :=
  ⟨by decide, by decide, by decide, by decide⟩

/-- C9: a successful section write appends exactly its metadata block with
the patched start and end fields followed by the padded record stream, and
every byte at an offset that existed before the call is unchanged: the old
buffer is a prefix of the new one. -/
theorem c9_section_writes_append_only (s : WriterState)
    (kpairs epairs : List (Bytes × Bytes)) (padding precision : Nat)
    (hpad : padding = 4 ∨ padding = 8 ∨ padding = 16)
    (hprec : precision = 16 ∨ precision = 32) :
    (∃ s1, writeKeywordSection kpairs padding s = Except.ok s1 ∧
      s1.buf = s.buf ++ (u64le (s.buf.length + 17) ++
        (u64le (s.buf.length + 17 + (kwData kpairs padding).length) ++
          ([padding] ++ kwData kpairs padding))) ∧
      s1.buf.take s.buf.length = s.buf) ∧
    (∃ s2, writeEmbeddingSection epairs padding precision s = Except.ok s2 ∧
      s2.buf = s.buf ++ ([precision] ++ (u64le (s.buf.length + 18) ++
        (u64le (s.buf.length + 18 + (embData epairs padding).length) ++
          ([padding] ++ embData epairs padding)))) ∧
      s2.buf.take s.buf.length = s.buf) := by
  constructor
  · refine ⟨_, writeKeywordSection_eq kpairs padding s hpad, rfl, ?_⟩
    show (s.buf ++ _).take s.buf.length = s.buf
    exact List.take_left _ _
  · refine ⟨_, writeEmbeddingSection_eq epairs padding precision s hpad hprec, rfl, ?_⟩
    show (s.buf ++ _).take s.buf.length = s.buf
    exact List.take_left _ _

/-- C9 witness: the append-only property at a concrete writer state. -/
theorem c9_witness :
    ((8 : Nat) = 4 ∨ (8 : Nat) = 8 ∨ (8 : Nat) = 16) ∧
    ((32 : Nat) = 16 ∨ (32 : Nat) = 32) ∧
    ((∃ s1, writeKeywordSection [([97], [98])] 8 initWriter = Except.ok s1 ∧
        s1.buf = initWriter.buf ++ (u64le (initWriter.buf.length + 17) ++
          (u64le (initWriter.buf.length + 17 + (kwData [([97], [98])] 8).length) ++
            ([8] ++ kwData [([97], [98])] 8))) ∧
        s1.buf.take initWriter.buf.length = initWriter.buf) ∧
      (∃ s2, writeEmbeddingSection [([1, 2], [99])] 8 32 initWriter = Except.ok s2 ∧
        s2.buf = initWriter.buf ++ ([32] ++ (u64le (initWriter.buf.length + 18) ++
          (u64le (initWriter.buf.length + 18 + (embData [([1, 2], [99])] 8).length) ++
            ([8] ++ embData [([1, 2], [99])] 8)))) ∧
        s2.buf.take initWriter.buf.length = initWriter.buf)) :=
  ⟨by decide, by decide,
    c9_section_writes_append_only initWriter [([97], [98])] [([1, 2], [99])] 8 32
      (by decide) (by decide)⟩

/-- C10: write_keyword_section on an empty pair list still appends the
17-byte metadata block (buffer grows from 11 to 28 bytes) and registers the
index entry (keyword, 28, 28) with start equal to end, and on the finalized
file search_keyword returns the empty list for every query and every
padding argument, without failing. -/
theorem c10_empty_section :
    writeKeywordSection [] 8 (writeHeader 0 1 0 initWriter) = Except.ok
      ⟨magicBytes ++ [0, 1, 0, 0] ++ u64le 28 ++ u64le 28 ++ [8], [(kwToken, 28, 28)]⟩ ∧
    (magicBytes ++ [0, 1, 0, 0] ++ u64le 28 ++ u64le 28 ++ [8] : Bytes).length = 28 ∧
    ∀ (q : Bytes) (pad : Nat), searchKeyword (finalizeBuf
      ⟨magicBytes ++ [0, 1, 0, 0] ++ u64le 28 ++ u64le 28 ++ [8],
        [(kwToken, 28, 28)]⟩) q pad = [] := by
  refine ⟨by decide, by decide, ?_⟩
  intro q pad
  rw [searchKeyword_eq_loop _ q pad 28 28 (by decide)]
  rfl

end RAGFile
